import Mathlib

/-!
Verification of core invariants of the pranadb sharded push-execution engine.

The definitions below are shallow embeddings of the Go source:
byte buffers are `List Nat` (one element per byte), unsigned 64-bit
integers are `Nat` with explicit truncation where the source relies on
fixed width, fallible code (Go panics) returns `Option`, and stateful
code is explicit state passing.
-/

namespace Prana

/-- Byte buffer: one `Nat` per byte, least index = first byte. -/
abbrev Bytes := List Nat

/-- Little-endian encoding of `v` into `w` bytes
(`common.AppendUint64ToBufferLittleEndian` with `w = 8`). -/
def toBytesLE (w : Nat) (v : Nat) : Bytes :=
  match w with
  | 0 => []
  | n + 1 => (v % 256) :: toBytesLE n (v / 256)

/-- Big-endian encoding of `v` into `w` bytes (`common.AppendUint64ToBufferBE`
with `w = 8`): most significant byte first. -/
def toBytesBE (w : Nat) (v : Nat) : Bytes :=
  match w with
  | 0 => []
  | n + 1 => toBytesBE n (v / 256) ++ [v % 256]

/-- 8-byte little-endian encoding of a u64. -/
def u64LE (v : Nat) : Bytes := toBytesLE 8 v

/-- 8-byte big-endian encoding of a u64. -/
def u64BE (v : Nat) : Bytes := toBytesBE 8 v

/-- Decode bytes as a little-endian number (`common.ReadUint64FromBufferLittleEndian`
reads 8 bytes; the caller passes exactly the window). -/
def fromBytesLE (bs : Bytes) : Nat :=
  match bs with
  | [] => 0
  | b :: rest => b + 256 * fromBytesLE rest

/-- `common.ReadUint64FromBufferLittleEndian(buff, off)`: little-endian u64 at
byte offset `off`. -/
def readU64LE (bs : Bytes) (off : Nat) : Nat :=
  fromBytesLE ((bs.drop off).take 8)

/-- `common.ReadUint64FromBufferBE(key, 0)`: big-endian u64 at offset 0. -/
def readU64BE (bs : Bytes) : Nat :=
  (bs.take 8).foldl (fun acc b => acc * 256 + b) 0

end Prana

namespace Prana

/-! ### Shard state machine (`ShardOnDiskStateMachine`, dragon) -/

/-- `calcProcessingNode(nodeIDs, shardID, nodeID)`: the processor replica is
`nodeIDs[shardID mod len(nodeIDs)]`.  Go panics (division by zero) on an
empty replica set, modelled as `none`. -/
def calcProcessingNode (nodeIDs : List Nat) (shardID : Nat) (nodeID : Nat) : Option Bool :=
  if h : 0 < nodeIDs.length then
    some (nodeID == nodeIDs.get ⟨shardID % nodeIDs.length, Nat.mod_lt _ h⟩)
  else none

/-- Key/value pair as used by `cluster.KVPair` and pebble batches. -/
structure KVPair where
  key : Bytes
  value : Bytes
  deriving Repr, DecidableEq

/-- `ShardOnDiskStateMachine.checkKey`: sanity guard.  Skipped entirely for a
test dragon; otherwise the first 8 bytes of the key are decoded big-endian
and must equal the shard ID (the Go code panics otherwise, so `false` here
means panic). -/
def checkKey (testDragon : Bool) (shardID : Nat) (key : Bytes) : Bool :=
  if testDragon then true
  else readU64BE key == shardID

/-- In-memory model of the pebble store for the write path: an association
list from key to value, later writes overriding earlier ones. -/
abbrev KVStore := List (Bytes × Bytes)

/-- pebble `batch.Set`. -/
def kvSet (st : KVStore) (k v : Bytes) : KVStore :=
  (st.filter (fun p => p.1 ≠ k)) ++ [(k, v)]

/-- pebble `batch.Delete`. -/
def kvDel (st : KVStore) (k : Bytes) : KVStore :=
  st.filter (fun p => p.1 ≠ k)

/-- `ShardOnDiskStateMachine.handleWrite` after `deserializeWriteBatch`:
applies each put and each delete to the pebble batch, checking every key
with `checkKey` first.  A failed check panics in Go before the batch is
applied, modelled as `none`. -/
def handleWrite (testDragon : Bool) (shardID : Nat) (puts : List KVPair)
    (deletes : List Bytes) (st : KVStore) : Option KVStore := do
  let st1 ← puts.foldlM
    (fun acc p =>
      if checkKey testDragon shardID p.key then some (kvSet acc p.key p.value) else none)
    st
  deletes.foldlM
    (fun acc k => if checkKey testDragon shardID k then some (kvDel acc k) else none)
    st1

/-! ### Forwarder write path (`PushEngine.QueueForRemoteSend`) -/

/-- `ForwarderTableID = 1`. -/
def ForwarderTableID : Nat := 1

/-- `ReceiverTableID = 3`. -/
def ReceiverTableID : Nat := 3

/-- `ReceiverSequenceTableID = 4`. -/
def ReceiverSequenceTableID : Nat := 4

/-- The queue key built by `PushEngine.QueueForRemoteSend`: all fields are
appended little-endian:
`ForwarderTableID || localShardID || remoteShardID || sequence || remoteConsumerID`. -/
def forwarderQueueKey (localShardID remoteShardID sequence remoteConsumerID : Nat) : Bytes :=
  u64LE ForwarderTableID ++ u64LE localShardID ++ u64LE remoteShardID ++
    u64LE sequence ++ u64LE remoteConsumerID

end Prana

namespace Prana

/-! ### Receiver side (`PushEngine.handleReceivedRows`) -/

/-- Byte-wise lexicographic order on keys: the order in which a pebble scan
returns keys (`LocalScan` iterates in ascending key order). -/
def bytesLtB : Bytes → Bytes → Bool
  | [], [] => false
  | [], _ :: _ => true
  | _ :: _, [] => false
  | a :: as, b :: bs => if a < b then true else if b < a then false else bytesLtB as bs

/-- The receiver queue key written by `transferData`:
`ReceiverTableID || receivingShardID || sendingShardID || sequence || remoteConsumerID`,
all fields little-endian (the last 16 bytes are copied verbatim from the
forwarder queue key). -/
def receiverKey (receivingShardID sendingShardID sequence remoteConsumerID : Nat) : Bytes :=
  u64LE ReceiverTableID ++ u64LE receivingShardID ++ u64LE sendingShardID ++
    u64LE sequence ++ u64LE remoteConsumerID

/-- `genReceivingSequenceKey`. -/
def genReceivingSequenceKey (receivingShardID sendingShardID : Nat) : Bytes :=
  u64LE ReceiverSequenceTableID ++ u64LE receivingShardID ++ u64LE sendingShardID

/-- Sending shard parsed from a receiver queue key (`ReadUint64...(key, 16)`). -/
def entrySender (kv : KVPair) : Nat := readU64LE kv.key 16

/-- Sender sequence parsed from a receiver queue key (`ReadUint64...(key, 24)`). -/
def entrySeq (kv : KVPair) : Nat := readU64LE kv.key 24

/-- Remote consumer ID parsed from a receiver queue key (`ReadUint64...(key, 32)`). -/
def entryConsumer (kv : KVPair) : Nat := readU64LE kv.key 32

/-- Ghost record of one row handed downstream by `handleReceivedRows`. -/
structure RecvEntry where
  sender : Nat
  seq : Nat
  consumer : Nat
  value : Bytes
  deriving Repr, DecidableEq

/-- Loop state of `handleReceivedRows`:
`rows` is the `remoteConsumerRows` map (consumer ID to rows, in append order),
`seqs` is the `receivingSequences` map, `consumers` / `senders` record the key
sets of those maps in insertion order, `dels` the keys added to the write
batch's deletes, and `handled` is a ghost trace of the rows handed
downstream, in processing order. -/
structure RecvAcc where
  rows : Nat → List Bytes
  seqs : Nat → Option Nat
  consumers : List Nat
  senders : List Nat
  dels : List Bytes
  handled : List RecvEntry

/-- Initial loop state: empty maps, empty batch deletes. -/
def recvInit : RecvAcc :=
  { rows := fun _ => [], seqs := fun _ => none, consumers := [], senders := [],
    dels := [], handled := [] }

/-- One iteration of the scan loop in `handleReceivedRows` for `kv`:
look up the last received sequence for the sending shard (from the
in-memory map, falling back to the stored value `stored`), hand the row
downstream only if its sequence is greater, and always delete the key. -/
def recvStep (stored : Nat → Nat) (acc : RecvAcc) (kv : KVPair) : RecvAcc :=
  let sendingShardID := entrySender kv
  let lastReceivedSeq := (acc.seqs sendingShardID).getD (stored sendingShardID)
  let receivedSeq := entrySeq kv
  let remoteConsumerID := entryConsumer kv
  let acc1 :=
    if lastReceivedSeq < receivedSeq then
      { acc with
        rows := fun c => if c = remoteConsumerID then acc.rows c ++ [kv.value] else acc.rows c
        consumers := if remoteConsumerID ∈ acc.consumers then acc.consumers
                     else acc.consumers ++ [remoteConsumerID]
        seqs := fun s => if s = sendingShardID then some receivedSeq else acc.seqs s
        senders := if sendingShardID ∈ acc.senders then acc.senders
                   else acc.senders ++ [sendingShardID]
        handled := acc.handled ++ [⟨sendingShardID, receivedSeq, remoteConsumerID, kv.value⟩] }
    else acc
  { acc1 with dels := acc1.dels ++ [kv.key] }

/-- The scan loop of `PushEngine.handleReceivedRows` over the scanned
receiver-queue entries (`kvPairs`, in ascending key order as returned by
`LocalScan`).  `stored` is the persisted last-received sequence per sending
shard (`lastReceivingSequence`, 0 when absent). -/
def handleReceivedRows (stored : Nat → Nat) (kvPairs : List KVPair) : RecvAcc :=
  kvPairs.foldl (recvStep stored) recvInit

/-- Write batch as submitted to the cluster (`cluster.WriteBatch`). -/
structure WriteBatch where
  shardID : Nat
  notifyRemote : Bool
  puts : List (Bytes × Bytes)
  deletes : List Bytes

/-- The single write batch built by `handleReceivedRows`: the deletes
accumulated during the scan, the puts added by the downstream consumer
(`rawRowHandler.HandleRawRows`, abstracted as `handlerPuts`, invoked only
when at least one row was handed downstream), and one
`updateLastReceivingSequence` put per updated sending shard — all submitted
through one `WriteBatch` call. -/
def handleReceivedRowsBatch (receivingShardID : Nat) (stored : Nat → Nat)
    (kvPairs : List KVPair) (handlerPuts : List (Bytes × Bytes)) : WriteBatch :=
  let acc := handleReceivedRows stored kvPairs
  { shardID := receivingShardID
    notifyRemote := false
    puts := (if acc.consumers = [] then [] else handlerPuts) ++
      acc.senders.filterMap (fun s =>
        match acc.seqs s with
        | some v => some (genReceivingSequenceKey receivingShardID s, u64LE v)
        | none => none)
    deletes := acc.dels }

/-- Effective last-received sequence for sender `s` part-way through the scan:
the in-memory map entry when present, the stored value otherwise. -/
def effLast (stored : Nat → Nat) (acc : RecvAcc) (s : Nat) : Nat :=
  (acc.seqs s).getD (stored s)

/-- Invariant maintained by the scan loop of `handleReceivedRows`. -/
structure RecvInv (stored : Nat → Nat) (acc : RecvAcc) : Prop where
  lower : ∀ s, stored s ≤ effLast stored acc s
  handledLower : ∀ e ∈ acc.handled, stored e.sender < e.seq
  handledUpper : ∀ e ∈ acc.handled, e.seq ≤ effLast stored acc e.sender
  grouped : ∀ c, acc.rows c =
    (acc.handled.filter (fun e => e.consumer == c)).map RecvEntry.value
  increasing : List.Pairwise (fun a b => a.sender = b.sender → a.seq < b.seq) acc.handled
  sendersIff : ∀ s, (acc.seqs s).isSome = true ↔ s ∈ acc.senders

end Prana

namespace Prana

/-! ### Table executor (`TableExecutor.HandleRows`)

The row and key codecs (`common.EncodeRow`, `common.DecodeRow`,
`common.EncodeKeyCols`, `table.EncodeTableKeyPrefix`) live in the `common`
and `table` packages, which are not part of the source tree here.
Modelled from the spec: a row is an ordered tuple of column values
(columns in declared order), the stored value is the encoded row, and the
key is `shardID || tableID || encoded primary-key columns` with an
order/injectivity-preserving column encoding.  Rows are represented as
their column lists and the key as a record of its three logical fields,
which is faithful up to byte-level layout. -/

/-- A row: column values in declared order. -/
abbrev Row := List Int

/-- `common.EncodeKeyCols`: the primary-key columns of the row, in key-column
order (modelled from the spec: order-preserving encoding of the PK columns). -/
def encodeKeyCols (pkCols : List Nat) (r : Row) : List Int :=
  pkCols.map (fun i => r.getD i 0)

/-- A table key: `EncodeTableKeyPrefix(tableID, shardID, _)` followed by the
encoded primary-key columns (modelled from the spec: shard ID, then table
ID, then the encoded PK columns). -/
structure TKey where
  shardID : Nat
  tableID : Nat
  pk : List Int
  deriving Repr, DecidableEq

/-- The key under which `HandleRows` stores a row. -/
def rowKey (tableID shardID : Nat) (pkCols : List Nat) (r : Row) : TKey :=
  ⟨shardID, tableID, encodeKeyCols pkCols r⟩

/-- `common.EncodeRow` (modelled from the spec: value = encoded row, columns
in declared order; represented by the column list itself). -/
def encodeRowV (r : Row) : Row := r

/-- `common.DecodeRow`, the inverse of `encodeRowV`. -/
def decodeRowV (v : Row) : Row := v

/-- The table store visible to `LocalGet`. -/
def TStore := TKey → Option Row

/-- One entry of a `RowsBatch`: the row before the mutation and after it
(either may be absent). -/
structure TEntry where
  prev : Option Row
  curr : Option Row
  deriving Repr, DecidableEq

/-- Write batch restricted to a single table (puts and deletes on `TKey`). -/
structure TWriteBatch where
  puts : List (TKey × Row)
  deletes : List TKey
  deriving Repr, DecidableEq

/-- The loop of `TableExecutor.HandleRows` over one `RowsBatch`.
For an entry with a current row: encode its key, look the key up in the
store (`LocalGet` sees the committed store, not the pending batch); if a
stored row exists it is decoded and emitted as the `prev` of the outgoing
entry; the new encoded row is put under the key.  For an entry with no
current row: the key is built from the batch's `prev` row, that row is
emitted, and the key is deleted (Go would nil-panic if `prev` were also
absent, modelled as `none`).  Returns the emitted downstream entries and
the write batch contributions, in entry order. -/
def handleRows (tableID shardID : Nat) (pkCols : List Nat) (store : TStore) :
    List TEntry → Option (List TEntry × TWriteBatch)
  | [] => some ([], ⟨[], []⟩)
  | e :: rest =>
    match e.curr with
    | some currentRow =>
      match handleRows tableID shardID pkCols store rest with
      | some (es, wb) =>
        some ((match store (rowKey tableID shardID pkCols currentRow) with
               | some v => (⟨some (decodeRowV v), some currentRow⟩ : TEntry)
               | none => ⟨none, some currentRow⟩) :: es,
              ⟨(rowKey tableID shardID pkCols currentRow, encodeRowV currentRow) :: wb.puts,
               wb.deletes⟩)
      | none => none
    | none =>
      match e.prev with
      | none => none
      | some prevRow =>
        match handleRows tableID shardID pkCols store rest with
        | some (es, wb) =>
          some (⟨some prevRow, none⟩ :: es,
                ⟨wb.puts, rowKey tableID shardID pkCols prevRow :: wb.deletes⟩)
        | none => none

/-- Applying a committed table write batch to the store: the state machine
applies all puts, then all deletes (`handleWrite`). -/
def applyTWriteBatch (store : TStore) (wb : TWriteBatch) : TStore :=
  let afterPuts := wb.puts.foldl (fun st p => fun q => if q = p.1 then some p.2 else st q) store
  wb.deletes.foldl (fun st k => fun q => if q = k then none else st q) afterPuts

end Prana

namespace Prana

/-! ### Shard state machine membership (`handleRemoveNode`) -/

/-- A shard listener; `gen` distinguishes successive listeners created by the
factory, `isOpen` records whether `Close` has been called. -/
structure Listener where
  gen : Nat
  isOpen : Bool
  deriving Repr, DecidableEq

/-- The in-memory state of `ShardOnDiskStateMachine` relevant to
`handleRemoveNode`.  `nextGen` is the generation the listener factory will
assign to the next listener it creates. -/
structure SMState where
  shardID : Nat
  nodeID : Nat
  nodeIDs : List Nat
  processor : Bool
  shardListener : Option Listener
  nextGen : Nat
  deriving Repr, DecidableEq

/-- `cluster.ShardListener.Close`. -/
def closeListener : Option Listener → Option Listener
  | some l => some { l with isOpen := false }
  | none => none

/-- `ShardOnDiskStateMachine.handleRemoveNode`: if the node is not in the
in-memory replica set the command is ignored; otherwise the node is removed,
the processor is recomputed (`none` models the Go panic when the replica
set becomes empty), and if the processor flag changed the old listener is
closed and a new one created exactly when this node is now the processor. -/
def handleRemoveNode (s : SMState) (n : Nat) : Option SMState :=
  if n ∈ s.nodeIDs then
    match calcProcessingNode (s.nodeIDs.filter (fun nid => nid ≠ n)) s.shardID s.nodeID with
    | none => none
    | some newProcessor =>
      if newProcessor ≠ s.processor then
        if newProcessor then
          some { s with nodeIDs := s.nodeIDs.filter (fun nid => nid ≠ n), processor := newProcessor,
                        shardListener := some ⟨s.nextGen, true⟩, nextGen := s.nextGen + 1 }
        else
          some { s with nodeIDs := s.nodeIDs.filter (fun nid => nid ≠ n), processor := newProcessor,
                        shardListener := closeListener s.shardListener }
      else
        some { s with nodeIDs := s.nodeIDs.filter (fun nid => nid ≠ n) }
  else
    some s

end Prana

namespace Prana

/-! ### Source ingest (`MessageConsumer.getBatch`) -/

/-- A Kafka message's partition info (`msg.PartInfo`). -/
structure KMessage where
  part : Int
  offset : Int
  deriving Repr, DecidableEq

/-- Association-map lookup (Go `map[int32]int64` read). -/
def lookupAssoc : List (Int × Int) → Int → Option Int
  | [], _ => none
  | (k, v) :: rest, q => if k = q then some v else lookupAssoc rest q

/-- Association-map store (Go `map[int32]int64` write). -/
def setAssoc (m : List (Int × Int)) (k v : Int) : List (Int × Int) :=
  m.filter (fun p => p.1 ≠ k) ++ [(k, v)]

/-- The last offset actually seen for a partition: the startup-committed
offset minus one, or -1 when no offset was committed. -/
def lastSeenOffset (startupCommittedOffsets : List (Int × Int)) (p : Int) : Int :=
  match lookupAssoc startupCommittedOffsets p with
  | some o => o - 1
  | none => -1

/-- A message the startup offsets mark as already seen. -/
def isDuplicate (startupCommittedOffsets : List (Int × Int)) (m : KMessage) : Bool :=
  decide (m.offset ≤ lastSeenOffset startupCommittedOffsets m.part)

/-- Result of `MessageConsumer.getBatch`: the batch handed to the source, the
offsets to commit, and the messages for which a duplicate warning was
logged. -/
structure BatchResult where
  msgs : List KMessage
  offsetsToCommit : List (Int × Int)
  dupWarnings : List KMessage
  deriving Repr, DecidableEq

/-- The collection loop of `MessageConsumer.getBatch`: while the batch holds
at most `maxRecords` messages, fetch the next message (`avail` is the
stream `GetMessage` yields; its exhaustion is the `msg == nil` poll
timeout).  Record `offset+1` in the offsets to commit, then compare the
offset against the startup-committed offset minus one: a duplicate is
logged and collection stops without including it; otherwise the message is
appended.  (The poll-deadline break after an append is a real-time bound
and is not modelled.) -/
def getBatchAux (startupCommittedOffsets : List (Int × Int)) (maxRecords : Nat) :
    List KMessage → List KMessage → List (Int × Int) → List KMessage → BatchResult
  | avail, msgs, commits, warns =>
    if msgs.length > maxRecords then ⟨msgs, commits, warns⟩
    else
      match avail with
      | [] => ⟨msgs, commits, warns⟩
      | m :: rest =>
        let commits1 := setAssoc commits m.part (m.offset + 1)
        if m.offset ≤ lastSeenOffset startupCommittedOffsets m.part then
          ⟨msgs, commits1, warns ++ [m]⟩
        else
          getBatchAux startupCommittedOffsets maxRecords rest (msgs ++ [m]) commits1 warns

/-- `MessageConsumer.getBatch`. -/
def getBatch (startupCommittedOffsets : List (Int × Int)) (maxRecords : Nat)
    (avail : List KMessage) : BatchResult :=
  getBatchAux startupCommittedOffsets maxRecords avail [] [] []

end Prana

namespace Prana

/-! ### Cluster façade retry and timeouts (`Dragon.executeWithRetry`,
`Dragon.getTimeout`) -/

/-- Outcome of one invocation of the retried closure `f`. -/
inductive COutcome where
  | ok : Nat → COutcome
  | notReady : COutcome
  | otherErr : Nat → COutcome
  deriving Repr, DecidableEq

/-- Error returned by `executeWithRetry`. -/
inductive CErr where
  | notReady : CErr
  | other : Nat → CErr
  deriving Repr, DecidableEq

/-- `retryDelay = 100 * time.Millisecond`, in milliseconds. -/
def retryDelay : Nat := 100

/-- `dragonCallTimeout = time.Second * 10`, in milliseconds. -/
def dragonCallTimeout : Nat := 10000

/-- `initialShardTimeout = 15 * time.Minute`, in milliseconds. -/
def initialShardTimeout : Nat := 900000

/-- `Dragon.executeWithRetry`: the closure's successive invocations are the
trace, each paired with how many milliseconds it took.  A cluster-not-ready
error is retried after sleeping `retryDelay`, unless the elapsed time since
the start has reached the timeout; every other error aborts immediately;
`none` means the trace was exhausted with the loop still running. -/
def executeWithRetry : List (COutcome × Nat) → Nat → Nat → Option (Except CErr Nat)
  | [], _, _ => none
  | (o, d) :: rest, timeout, elapsed =>
    match o with
    | COutcome.ok v => some (Except.ok v)
    | COutcome.otherErr e => some (Except.error (CErr.other e))
    | COutcome.notReady =>
      if timeout ≤ elapsed + d then some (Except.error CErr.notReady)
      else executeWithRetry rest timeout (elapsed + d + retryDelay)

/-- `Dragon.getTimeout`: the first access to a shard after startup gets the
long initial timeout and marks the shard accessed; afterwards the short
timeout.  Returns the timeout and the updated accessed set. -/
def getTimeout (firstShardAccessed : List Nat) (shardID : Nat) : Nat × List Nat :=
  if shardID ∈ firstShardAccessed then (dragonCallTimeout, firstShardAccessed)
  else (initialShardTimeout, shardID :: firstShardAccessed)

end Prana

namespace Prana

/-! ### Local scans (`Dragon.LocalScan`, `Dragon.LocalScanWithSnapshot`,
`Dragon.scanWithIter`) -/

/-- The contents of a pebble iterator with `LowerBound = lower` and
`UpperBound = upper` (exclusive; `none` = unbounded), over the store's
pairs `db` (which are in ascending key order). -/
def iterEntries (db : List KVPair) (lower : Bytes) (upper : Option Bytes) : List KVPair :=
  db.filter (fun kv =>
    !bytesLtB kv.key lower &&
      (match upper with
       | none => true
       | some u => bytesLtB kv.key u))

/-- The collection loop of `Dragon.scanWithIter`: keep copying pairs while
`limit == -1 || count < limit`. -/
def takeScan (limit : Int) : Int → List KVPair → List KVPair
  | _, [] => []
  | count, kv :: rest =>
    if limit = -1 ∨ count < limit then kv :: takeScan limit (count + 1) rest else []

/-- `Dragon.scanWithIter` on an iterator bounded below by `startKey` and
above by `upper`. -/
def scanWithIter (db : List KVPair) (startKey : Bytes) (upper : Option Bytes)
    (limit : Int) : List KVPair :=
  takeScan limit 0 (iterEntries db startKey upper)

/-- `Dragon.LocalScan`: panics (`none`) when the start key prefix is nil. -/
def localScan (db : List KVPair) (startKey endKey : Option Bytes) (limit : Int) :
    Option (List KVPair) :=
  match startKey with
  | none => none
  | some sk => some (scanWithIter db sk endKey limit)

/-- `Dragon.LocalScanWithSnapshot`: same loop over the snapshot's view;
panics (`none`) when the start key prefix is nil. -/
def localScanWithSnapshot (snapshotDb : List KVPair) (startKey endKey : Option Bytes)
    (limit : Int) : Option (List KVPair) :=
  match startKey with
  | none => none
  | some sk => some (scanWithIter snapshotDb sk endKey limit)

end Prana

namespace Prana

/-! ### Client statement execution (`client.Client`) -/

/-- Observable actions of the client, in program order: gRPC calls to the
server, writes to / closing of the statement's result channel, and the
clearing of the `executing` flag. -/
inductive ClientEvent where
  | serverCreateSession : ClientEvent
  | serverCloseSession : String → ClientEvent
  | serverExecute : String → ClientEvent
  | chanWrite : String → ClientEvent
  | chanClose : ClientEvent
  | clearExecuting : ClientEvent
  deriving Repr, DecidableEq

/-- The client's guarded state (`Client.lock` protects these fields). -/
structure ClientState where
  started : Bool
  executing : Bool
  sessionIDs : List String
  deriving Repr, DecidableEq

/-- `Client.CreateSession`: refuses when not started or while a statement is
executing, in both cases before any server call. -/
def createSession (c : ClientState) (newSessionID : String) :
    ClientState × Except String String × List ClientEvent :=
  if !c.started then (c, Except.error "not started", [])
  else if c.executing then (c, Except.error "statement currently executing", [])
  else ({ c with sessionIDs := c.sessionIDs ++ [newSessionID] }, Except.ok newSessionID,
        [ClientEvent.serverCreateSession])

/-- `Client.CloseSession`: refuses when not started or while a statement is
executing, in both cases before any server call. -/
def closeSession (c : ClientState) (sessionID : String) :
    ClientState × Except String Unit × List ClientEvent :=
  if !c.started then (c, Except.error "not started", [])
  else if c.executing then (c, Except.error "statement currently executing", [])
  else ({ c with sessionIDs := c.sessionIDs.filter (fun s => s ≠ sessionID) },
        Except.ok (), [ClientEvent.serverCloseSession sessionID])

/-- `Client.ExecuteStatement`: refuses when not started or while a statement
is already executing; otherwise sets the `executing` flag and spawns
`doExecuteStatement` (the server is contacted only there). -/
def executeStatement (c : ClientState) (statement : String) :
    ClientState × Except String Unit × List ClientEvent :=
  if !c.started then (c, Except.error "not started", [])
  else if c.executing then (c, Except.error "statement already executing", [])
  else ({ c with executing := true }, Except.ok (), [])

/-- `Client.doExecuteStatement`: issues the statement to the server, streams
every result line into the channel, then the final status line, closes the
channel, and only then clears the `executing` flag (under the lock). -/
def doExecuteStatement (c : ClientState) (statement : String) (lines : List String)
    (finalLine : String) : ClientState × List ClientEvent :=
  ({ c with executing := false },
    ClientEvent.serverExecute statement ::
      (lines.map ClientEvent.chanWrite ++
        [ClientEvent.chanWrite finalLine, ClientEvent.chanClose, ClientEvent.clearExecuting]))

end Prana

namespace Prana

/-! ### Supporting arithmetic lemmas for the byte codecs -/

theorem fromBytesLE_toBytesLE (w v : Nat) :
    fromBytesLE (toBytesLE w v) = v % 256 ^ w := by
  induction w generalizing v with
  | zero => simp [toBytesLE, fromBytesLE, Nat.mod_one]
  | succ n ih =>
    have h : (256 : Nat) ^ (n + 1) = 256 * 256 ^ n := by ring
    rw [toBytesLE, fromBytesLE, ih, h, Nat.mod_mul]

theorem readU64BE_append (v : Nat) (rest : Bytes) :
    readU64BE (toBytesBE 8 v ++ rest) = v % 2 ^ 64 := by
  have hlen : ∀ w v, (toBytesBE w v).length = w := by
    intro w
    induction w with
    | zero => intro v; simp [toBytesBE]
    | succ n ih => intro v; simp [toBytesBE, ih]
  have hfold : ∀ w v a, (toBytesBE w v).foldl (fun acc b => acc * 256 + b) a
      = a * 256 ^ w + v % 256 ^ w := by
    intro w
    induction w with
    | zero => intro v a; simp [toBytesBE, Nat.mod_one]
    | succ n ih =>
      intro v a
      have h : (256 : Nat) ^ (n + 1) = 256 * 256 ^ n := by ring
      rw [toBytesBE, List.foldl_append, ih]
      simp only [List.foldl_cons, List.foldl_nil]
      rw [h, Nat.mod_mul]
      ring
  have htake : (toBytesBE 8 v ++ rest).take 8 = toBytesBE 8 v := by
    rw [List.take_append_of_le_length (by rw [hlen])]
    rw [List.take_of_length_le (by rw [hlen])]
  rw [readU64BE, htake, hfold]
  norm_num

theorem toBytesLE_length (w v : Nat) : (toBytesLE w v).length = w := by
  induction w generalizing v with
  | zero => simp [toBytesLE]
  | succ n ih => simp [toBytesLE, ih]

theorem readU64BE_u64LE_one (rest : Bytes) : readU64BE (u64LE 1 ++ rest) = 2 ^ 56 := by
  have hlen : (u64LE 1).length = 8 := by simp [u64LE, toBytesLE_length]
  rw [readU64BE, List.take_append_of_le_length (by rw [hlen]),
    List.take_of_length_le (by rw [hlen])]
  rfl

theorem foldlM_checkSet_isSome (tD : Bool) (shardID : Nat) (puts : List KVPair) (st : KVStore) :
    (puts.foldlM
      (fun acc p =>
        if checkKey tD shardID p.key then some (kvSet acc p.key p.value) else none)
      st).isSome = true
    ↔ ∀ p ∈ puts, checkKey tD shardID p.key = true := by
  induction puts generalizing st with
  | nil => simp
  | cons p rest ih =>
    by_cases h : checkKey tD shardID p.key
    · simp [h, ih]
    · simp [h]

theorem foldlM_checkDel_isSome (tD : Bool) (shardID : Nat) (deletes : List Bytes)
    (st : KVStore) :
    (deletes.foldlM
      (fun acc k => if checkKey tD shardID k then some (kvDel acc k) else none)
      st).isSome = true
    ↔ ∀ k ∈ deletes, checkKey tD shardID k = true := by
  induction deletes generalizing st with
  | nil => simp
  | cons k rest ih =>
    by_cases h : checkKey tD shardID k
    · simp [h, ih]
    · simp [h]

/-! ### C4 (corrected): shard-prefix sanity guard vs the forwarder write path -/

/-- C4 counterexample: the claim that every key added by
`QueueForRemoteSend` passes the state machine's key check is false at a
concrete input.  The forwarder queue key starts with the little-endian
forwarder table ID, so its first 8 bytes decode big-endian to `2^56`, not
the shard ID: on shard 1000 the check fails and a WRITE of such a key
panics (`none`) instead of being applied. -/
theorem forwarder_key_fails_shard_check :
    checkKey false 1000 (forwarderQueueKey 1000 1001 1 5) = false
    ∧ handleWrite false 1000 [⟨forwarderQueueKey 1000 1001 1 5, [42]⟩] [] [] = none := by
  decide

/-- C4 (amended): a WRITE / FORWARD_WRITE batch is applied by the shard
state machine (outside test mode) iff the first 8 bytes of every put and
delete key decode big-endian to the shard's ID, i.e. the state machine
panics on any key decoding to a different shard; any key that begins with
the shard ID's 8-byte big-endian encoding passes the check; but a key
built by `QueueForRemoteSend` begins with the little-endian forwarder
table ID, decodes to `2^56`, and fails the check on every shard whose ID
is not `2^56`. -/
theorem shard_state_machine_key_guard (shardID : Nat) (puts : List KVPair)
    (deletes : List Bytes) (st : KVStore) :
    ((handleWrite false shardID puts deletes st).isSome = true ↔
      ((∀ p ∈ puts, readU64BE p.key = shardID) ∧ (∀ k ∈ deletes, readU64BE k = shardID)))
    ∧ (∀ rest : Bytes, shardID < 2 ^ 64 → checkKey false shardID (u64BE shardID ++ rest) = true)
    ∧ (∀ localShardID remoteShardID sequence remoteConsumerID : Nat, shardID ≠ 2 ^ 56 →
        checkKey false shardID
          (forwarderQueueKey localShardID remoteShardID sequence remoteConsumerID) = false) := by
  have hck : ∀ k : Bytes, checkKey false shardID k = true ↔ readU64BE k = shardID := by
    intro k
    simp [checkKey]
  refine ⟨?_, ?_, ?_⟩
  · have hbind : handleWrite false shardID puts deletes st
        = (puts.foldlM
            (fun acc p =>
              if checkKey false shardID p.key then some (kvSet acc p.key p.value) else none)
            st).bind
          (fun st1 => deletes.foldlM
            (fun acc k => if checkKey false shardID k then some (kvDel acc k) else none)
            st1) := rfl
    rw [hbind]
    cases hA : puts.foldlM
        (fun acc p =>
          if checkKey false shardID p.key then some (kvSet acc p.key p.value) else none)
        st with
    | none =>
      have h1 := foldlM_checkSet_isSome false shardID puts st
      rw [hA] at h1
      simp only [Option.isSome_none, Bool.false_eq_true, false_iff, not_forall] at h1
      simp only [Option.none_bind, Option.isSome_none, Bool.false_eq_true, false_iff]
      intro hc
      obtain ⟨p, hp, hkp⟩ := h1
      exact hkp ((hck p.key).mpr (hc.1 p hp))
    | some st1 =>
      have h1 := foldlM_checkSet_isSome false shardID puts st
      rw [hA] at h1
      simp only [Option.isSome_some, true_iff] at h1
      have h2 := foldlM_checkDel_isSome false shardID deletes st1
      simp only [Option.some_bind]
      rw [h2]
      constructor
      · intro hd
        exact ⟨fun p hp => (hck p.key).mp (h1 p hp), fun k hk => (hck k).mp (hd k hk)⟩
      · intro hc k hk
        exact (hck k).mpr (hc.2 k hk)
  · intro rest hlt
    rw [hck]
    simp only [u64BE]
    rw [readU64BE_append]
    exact Nat.mod_eq_of_lt hlt
  · intro l r q c hne
    have h56 : readU64BE (forwarderQueueKey l r q c) = 2 ^ 56 :=
      readU64BE_u64LE_one (u64LE l ++ u64LE r ++ u64LE q ++ u64LE c)
    simp only [checkKey, Bool.if_false_left]
    rw [h56]
    norm_num at hne ⊢
    exact fun h => hne h.symm

/-- C4 witness: a batch whose keys all begin with the shard's big-endian ID
is applied, and such keys pass the check. -/
theorem shard_state_machine_key_guard_witness :
    (handleWrite false 1000 [⟨u64BE 1000 ++ [7], [1]⟩] [u64BE 1000 ++ [9]] []).isSome = true
    ∧ checkKey false 1000 (u64BE 1000 ++ [7]) = true := by
  have h := shard_state_machine_key_guard 1000 [⟨u64BE 1000 ++ [7], [1]⟩] [u64BE 1000 ++ [9]] []
  exact ⟨h.1.mpr (by decide), h.2.1 [7] (by norm_num)⟩

/-! ### C3: processor selection -/

/-- C3: for a non-empty replica set, `calcProcessingNode` is the pure
function returning `true` exactly when the queried node equals
`nodeIDs[shardID mod len(nodeIDs)]`; consequently, for fixed replica set
and shard, it returns `true` for exactly one node ID of the replica set
(and, being a pure function, the same inputs give the same result on every
replica). -/
theorem calcProcessingNode_selects_unique_processor
    (nodeIDs : List Nat) (shardID nodeID : Nat) (h : nodeIDs ≠ []) :
    (calcProcessingNode nodeIDs shardID nodeID = some true ↔
      nodeID = nodeIDs.getD (shardID % nodeIDs.length) 0)
    ∧ ∃! m, m ∈ nodeIDs ∧ calcProcessingNode nodeIDs shardID m = some true := by
  have hl : 0 < nodeIDs.length := List.length_pos.mpr h
  have hidx : shardID % nodeIDs.length < nodeIDs.length := Nat.mod_lt _ hl
  have hgetD : nodeIDs.getD (shardID % nodeIDs.length) 0
      = nodeIDs.get ⟨shardID % nodeIDs.length, hidx⟩ := by
    simp [List.getD_eq_getElem?_getD, List.getElem?_eq_getElem hidx]
  have hiff : ∀ n : Nat, calcProcessingNode nodeIDs shardID n = some true ↔
      n = nodeIDs.getD (shardID % nodeIDs.length) 0 := by
    intro n
    rw [hgetD]
    simp [calcProcessingNode, hl]
  refine ⟨hiff nodeID, ⟨nodeIDs.getD (shardID % nodeIDs.length) 0, ⟨?_, ?_⟩, ?_⟩⟩
  · rw [hgetD]
    exact List.get_mem nodeIDs _ hidx
  · rw [hiff]
  · intro m hm
    rw [hiff m] at hm
    exact hm.2

/-- C3 witness at a concrete replica set and shard. -/
theorem calcProcessingNode_selects_unique_processor_witness :
    (calcProcessingNode [4, 7, 9] 5 9 = some true ↔ 9 = [4, 7, 9].getD (5 % [4, 7, 9].length) 0)
    ∧ ∃! m, m ∈ [4, 7, 9] ∧ calcProcessingNode [4, 7, 9] 5 m = some true :=
  calcProcessingNode_selects_unique_processor [4, 7, 9] 5 9 (by simp)

/-! ### C9: local scans -/

theorem takeScan_neg_one (l : List KVPair) : ∀ c : Int, takeScan (-1) c l = l := by
  induction l with
  | nil => intro c; rfl
  | cons kv rest ih =>
    intro c
    simp [takeScan, ih]

/-- C9: both local scans panic (`none`) on a nil start key prefix rather than
returning an error result; for a non-nil start key prefix they succeed, and
`limit = -1` returns the whole bounded range (unbounded scan), the entries
being value copies of the store's pairs. -/
theorem local_scan_nil_start_panics (db : List KVPair) (endKey : Option Bytes) (limit : Int) :
    localScan db none endKey limit = none
    ∧ localScanWithSnapshot db none endKey limit = none
    ∧ (∀ sk, localScan db (some sk) endKey (-1) = some (iterEntries db sk endKey))
    ∧ (∀ sk, localScanWithSnapshot db (some sk) endKey (-1) = some (iterEntries db sk endKey)) := by
  refine ⟨rfl, rfl, ?_, ?_⟩ <;>
    exact fun sk => by simp [localScan, localScanWithSnapshot, scanWithIter, takeScan_neg_one]

/-! ### C8: cluster retry policy and per-shard timeouts -/

theorem retry_replicate_ok (v : Nat) (rest : List (COutcome × Nat)) (t : Nat) :
    ∀ (k el : Nat), (∀ j, j < k → el + j * retryDelay < t) →
    executeWithRetry (List.replicate k (COutcome.notReady, 0) ++ (COutcome.ok v, 0) :: rest) t el
      = some (Except.ok v) := by
  intro k
  induction k with
  | zero =>
    intro el _
    simp [executeWithRetry]
  | succ n ih =>
    intro el h
    have h0 : el + 0 * retryDelay < t := h 0 (Nat.succ_pos n)
    simp only [List.replicate_succ, List.cons_append, executeWithRetry]
    rw [if_neg (by omega)]
    apply ih
    intro j hj
    have hj1 := h (j + 1) (by omega)
    simp only [retryDelay] at hj1 ⊢
    omega

theorem retry_replicate_timeout (rest : List (COutcome × Nat)) (t : Nat) :
    ∀ (k el : Nat), (∃ j, j < k ∧ t ≤ el + j * retryDelay) →
    executeWithRetry (List.replicate k (COutcome.notReady, 0) ++ rest) t el
      = some (Except.error CErr.notReady) := by
  intro k
  induction k with
  | zero =>
    intro el h
    obtain ⟨j, hj, _⟩ := h
    exact absurd hj (Nat.not_lt_zero j)
  | succ n ih =>
    intro el h
    obtain ⟨j, hjk, hjt⟩ := h
    simp only [List.replicate_succ, List.cons_append, executeWithRetry]
    by_cases h0 : t ≤ el + 0
    · rw [if_pos h0]
    · rw [if_neg h0]
      apply ih
      have hj0 : j ≠ 0 := by
        intro hz
        subst hz
        simp only [Nat.zero_mul, Nat.add_zero] at hjt
        omega
      refine ⟨j - 1, by omega, ?_⟩
      simp only [retryDelay] at hjt ⊢
      omega

/-- C8: cluster-not-ready outcomes are retried after a `retryDelay` sleep
until the operation deadline (so a run of instantaneous not-ready results
succeeds iff the accumulated sleeps stay under the timeout, and times out
into the not-ready error otherwise), any other error aborts the loop
immediately, and the timeout used for a shard is the long initial timeout
(15 min) on its first access after startup and the short timeout (10 s)
afterwards. -/
theorem cluster_retry_policy :
    (∀ (e d : Nat) (rest : List (COutcome × Nat)) (t el : Nat),
      executeWithRetry ((COutcome.otherErr e, d) :: rest) t el
        = some (Except.error (CErr.other e)))
    ∧ (∀ (d : Nat) (rest : List (COutcome × Nat)) (t el : Nat), el + d < t →
        executeWithRetry ((COutcome.notReady, d) :: rest) t el
          = executeWithRetry rest t (el + d + retryDelay))
    ∧ (∀ (d : Nat) (rest : List (COutcome × Nat)) (t el : Nat), t ≤ el + d →
        executeWithRetry ((COutcome.notReady, d) :: rest) t el
          = some (Except.error CErr.notReady))
    ∧ (∀ (k v : Nat) (rest : List (COutcome × Nat)) (t : Nat),
        (∀ j, j < k → j * retryDelay < t) →
        executeWithRetry (List.replicate k (COutcome.notReady, 0) ++ (COutcome.ok v, 0) :: rest) t 0
          = some (Except.ok v))
    ∧ (∀ (k : Nat) (rest : List (COutcome × Nat)) (t : Nat),
        (∃ j, j < k ∧ t ≤ j * retryDelay) →
        executeWithRetry (List.replicate k (COutcome.notReady, 0) ++ rest) t 0
          = some (Except.error CErr.notReady))
    ∧ (∀ (accessed : List Nat) (shardID : Nat), shardID ∉ accessed →
        (getTimeout accessed shardID).1 = initialShardTimeout
        ∧ (getTimeout (getTimeout accessed shardID).2 shardID).1 = dragonCallTimeout)
    ∧ (∀ (accessed : List Nat) (shardID : Nat), shardID ∈ accessed →
        (getTimeout accessed shardID).1 = dragonCallTimeout)
    ∧ initialShardTimeout = 15 * 60 * 1000 ∧ dragonCallTimeout = 10 * 1000
    ∧ retryDelay = 100 := by
  refine ⟨?_, ?_, ?_, ?_, ?_, ?_, ?_, rfl, rfl, rfl⟩
  · intro e d rest t el
    rfl
  · intro d rest t el h
    simp only [executeWithRetry]
    rw [if_neg (by omega)]
  · intro d rest t el h
    simp only [executeWithRetry]
    rw [if_pos h]
  · intro k v rest t h
    exact retry_replicate_ok v rest t k 0 (fun j hj => by
      have := h j hj
      omega)
  · intro k rest t h
    apply retry_replicate_timeout rest t k 0
    obtain ⟨j, hjk, hjt⟩ := h
    exact ⟨j, hjk, by omega⟩
  · intro accessed shardID h
    constructor
    · simp [getTimeout, h]
    · simp [getTimeout, h]
  · intro accessed shardID h
    simp [getTimeout, h]

/-- C8 witness: two instantaneous not-ready results retry and then succeed
under a 250 ms deadline; an unexpected error aborts at once; a fresh shard
gets the long timeout, the next access the short one. -/
theorem cluster_retry_policy_witness :
    executeWithRetry
        [(COutcome.notReady, 0), (COutcome.notReady, 0), (COutcome.ok 3, 0)] 250 0
      = some (Except.ok 3)
    ∧ executeWithRetry [(COutcome.notReady, 0), (COutcome.otherErr 9, 0)] 250 0
      = some (Except.error (CErr.other 9))
    ∧ (getTimeout [] 2000).1 = initialShardTimeout
    ∧ (getTimeout (getTimeout [] 2000).2 2000).1 = dragonCallTimeout := by
  have h := cluster_retry_policy
  refine ⟨?_, ?_, ?_, ?_⟩
  · exact h.2.2.2.1 2 3 [] 250 (by decide)
  · rw [h.2.1 0 [(COutcome.otherErr 9, 0)] 250 0 (by decide)]
    exact h.1 9 0 [] 250 (0 + 0 + retryDelay)
  · exact (h.2.2.2.2.2.1 [] 2000 (by decide)).1
  · exact (h.2.2.2.2.2.1 [] 2000 (by decide)).2

/-! ### C6: duplicate detection in the source consumer -/

theorem getBatchAux_fresh (startup : List (Int × Int)) (maxRecords : Nat) :
    ∀ (pre rest msgs : List KMessage) (commits : List (Int × Int)) (warns : List KMessage),
      (∀ m ∈ pre, isDuplicate startup m = false) →
      msgs.length + pre.length ≤ maxRecords →
      getBatchAux startup maxRecords (pre ++ rest) msgs commits warns
        = getBatchAux startup maxRecords rest (msgs ++ pre)
            (pre.foldl (fun cm m => setAssoc cm m.part (m.offset + 1)) commits) warns := by
  intro pre
  induction pre with
  | nil =>
    intro rest msgs commits warns _ _
    simp
  | cons m pre ih =>
    intro rest msgs commits warns hfresh hlen
    have hm : isDuplicate startup m = false := hfresh m (by simp)
    have hnotdup : ¬ (m.offset ≤ lastSeenOffset startup m.part) := by
      simpa [isDuplicate] using hm
    rw [List.cons_append, getBatchAux]
    rw [if_neg (by simp only [gt_iff_lt, not_lt]; omega)]
    simp only []
    rw [if_neg hnotdup]
    rw [ih rest (msgs ++ [m]) (setAssoc commits m.part (m.offset + 1)) warns
      (fun x hx => hfresh x (by simp [hx]))
      (by simp only [List.length_append, List.length_cons, List.length_nil] at hlen ⊢; omega)]
    simp

/-- C6: messages are collected until the first one whose offset is at most
the startup-committed offset for its partition minus one (-1 when no
offset was committed): such a duplicate is warned about, excluded from the
batch, and stops collection; every collected message's offset is above the
per-partition last-seen value, and a run of only-fresh messages is
collected in full with no warnings. -/
theorem getBatch_duplicate_stops (startup : List (Int × Int)) (maxRecords : Nat)
    (pre post : List KMessage) (d : KMessage)
    (hfresh : ∀ m ∈ pre, isDuplicate startup m = false)
    (hdup : isDuplicate startup d = true)
    (hlen : pre.length ≤ maxRecords) :
    (getBatch startup maxRecords (pre ++ d :: post)).msgs = pre
    ∧ (getBatch startup maxRecords (pre ++ d :: post)).dupWarnings = [d]
    ∧ (∀ m ∈ (getBatch startup maxRecords (pre ++ d :: post)).msgs,
        lastSeenOffset startup m.part < m.offset)
    ∧ (∀ avail : List KMessage, (∀ m ∈ avail, isDuplicate startup m = false) →
        avail.length ≤ maxRecords →
        (getBatch startup maxRecords avail).msgs = avail
        ∧ (getBatch startup maxRecords avail).dupWarnings = []) := by
  have hdup' : d.offset ≤ lastSeenOffset startup d.part := by
    simpa [isDuplicate] using hdup
  have hmain : getBatch startup maxRecords (pre ++ d :: post)
      = ⟨pre, setAssoc (pre.foldl (fun cm m => setAssoc cm m.part (m.offset + 1)) [])
              d.part (d.offset + 1), [d]⟩ := by
    rw [getBatch, getBatchAux_fresh startup maxRecords pre (d :: post) [] [] [] hfresh
      (by simpa using hlen)]
    rw [getBatchAux]
    rw [if_neg (by simp only [gt_iff_lt, not_lt, List.nil_append]; simpa using hlen)]
    simp only [List.nil_append]
    rw [if_pos hdup']
  refine ⟨by rw [hmain], by rw [hmain], ?_, ?_⟩
  · rw [hmain]
    intro m hm
    have := hfresh m hm
    simpa [isDuplicate] using this
  · intro avail hf hl
    have : getBatch startup maxRecords avail
        = getBatchAux startup maxRecords [] avail
            (avail.foldl (fun cm m => setAssoc cm m.part (m.offset + 1)) []) [] := by
      rw [getBatch, ← List.append_nil avail,
        getBatchAux_fresh startup maxRecords avail [] [] [] [] hf (by simpa using hl)]
      simp
    rw [this, getBatchAux]
    rw [if_neg (by simp only [gt_iff_lt, not_lt]; omega)]
    exact ⟨rfl, rfl⟩

/-- C6 witness: partition 0 was committed up to offset 5 (last seen 4), so a
fresh message at offset 5 is collected and a replayed message at offset 3
is warned about, dropped, and stops the batch. -/
theorem getBatch_duplicate_stops_witness :
    (getBatch [(0, 5)] 10 ([⟨0, 5⟩] ++ ⟨0, 3⟩ :: [⟨0, 9⟩])).msgs = [⟨0, 5⟩]
    ∧ (getBatch [(0, 5)] 10 ([⟨0, 5⟩] ++ ⟨0, 3⟩ :: [⟨0, 9⟩])).dupWarnings = [⟨0, 3⟩]
    ∧ (∀ m ∈ (getBatch [(0, 5)] 10 ([⟨0, 5⟩] ++ ⟨0, 3⟩ :: [⟨0, 9⟩])).msgs,
        lastSeenOffset [(0, 5)] m.part < m.offset)
    ∧ (∀ avail : List KMessage, (∀ m ∈ avail, isDuplicate [(0, 5)] m = false) →
        avail.length ≤ 10 →
        (getBatch [(0, 5)] 10 avail).msgs = avail
        ∧ (getBatch [(0, 5)] 10 avail).dupWarnings = []) :=
  getBatch_duplicate_stops [(0, 5)] 10 [⟨0, 5⟩] [⟨0, 9⟩] ⟨0, 3⟩
    (by decide) (by decide) (by decide)

/-! ### C7: REMOVE_NODE idempotence and listener handover -/

/-- C7: a REMOVE_NODE for a node ID outside the in-memory replica set leaves
the state machine untouched, so applying the same command twice has the
effect of applying it once; when the node is present it is removed, the
processor flag is recomputed from the new replica set, and the shard
listener is closed/reopened only when the processor identity changed (a
new listener being created exactly when this node became the processor). -/
theorem handleRemoveNode_spec (s : SMState) (n : Nat) :
    (n ∉ s.nodeIDs → handleRemoveNode s n = some s)
    ∧ (∀ s', handleRemoveNode s n = some s' → handleRemoveNode s' n = some s')
    ∧ (∀ s', n ∈ s.nodeIDs → handleRemoveNode s n = some s' →
        s'.nodeIDs = s.nodeIDs.filter (fun nid => nid ≠ n)
        ∧ calcProcessingNode s'.nodeIDs s.shardID s.nodeID = some s'.processor
        ∧ (s'.processor = s.processor →
            s'.shardListener = s.shardListener ∧ s'.nextGen = s.nextGen)
        ∧ (s'.processor ≠ s.processor → s'.processor = true →
            s'.shardListener = some ⟨s.nextGen, true⟩)
        ∧ (s'.processor ≠ s.processor → s'.processor = false →
            s'.shardListener = closeListener s.shardListener)) := by
  have hnotmem_filter : ∀ l : List Nat, n ∉ l.filter (fun nid => nid ≠ n) := by
    intro l h
    have := List.of_mem_filter h
    simp at this
  refine ⟨?_, ?_, ?_⟩
  · intro h
    simp [handleRemoveNode, h]
  · intro s' h
    by_cases hmem : n ∈ s.nodeIDs
    · unfold handleRemoveNode at h
      rw [if_pos hmem] at h
      split at h
      · exact absurd h (by simp)
      · split at h
        · split at h
          · obtain rfl := Option.some.inj h
            simp [handleRemoveNode, List.mem_filter]
          · obtain rfl := Option.some.inj h
            simp [handleRemoveNode, List.mem_filter]
        · obtain rfl := Option.some.inj h
          simp [handleRemoveNode, List.mem_filter]
    · unfold handleRemoveNode at h
      rw [if_neg hmem] at h
      obtain rfl := Option.some.inj h
      unfold handleRemoveNode
      rw [if_neg hmem]
  · intro s' hmem h
    unfold handleRemoveNode at h
    rw [if_pos hmem] at h
    split at h
    · exact absurd h (by simp)
    · rename_i newProcessor heq
      split at h
      · rename_i hp
        split at h
        · rename_i hb
          obtain rfl := Option.some.inj h
          subst hb
          refine ⟨rfl, heq, ?_, fun _ _ => rfl, ?_⟩
          · intro hcontra
            exact absurd hcontra hp
          · intro _ hfalse
            exact absurd hfalse (by simp)
        · rename_i hb
          obtain rfl := Option.some.inj h
          have hb' : newProcessor = false := by
            revert hb
            cases newProcessor <;> simp
          subst hb'
          refine ⟨rfl, heq, ?_, ?_, fun _ _ => rfl⟩
          · intro hcontra
            exact absurd hcontra hp
          · intro _ hfalse
            exact absurd hfalse (by simp)
      · rename_i hp
        obtain rfl := Option.some.inj h
        have hpe : newProcessor = s.processor := by simpa using hp
        refine ⟨rfl, by rw [heq, hpe], fun _ => ⟨rfl, rfl⟩, ?_, ?_⟩
        · intro hcontra
          exact absurd rfl hcontra
        · intro hcontra
          exact absurd rfl hcontra

/-- C7 witness: removing node 2 from replica set `[0, 1, 2]` of shard 2000 on
node 1 (a non-processor before and after) removes it, keeps the listener,
and a second identical REMOVE_NODE is a no-op. -/
theorem handleRemoveNode_spec_witness :
    (3 ∉ ([0, 1, 2] : List Nat) →
      handleRemoveNode ⟨2000, 1, [0, 1, 2], false, none, 0⟩ 3
        = some ⟨2000, 1, [0, 1, 2], false, none, 0⟩)
    ∧ (∀ s', handleRemoveNode ⟨2000, 1, [0, 1, 2], false, none, 0⟩ 2 = some s' →
        handleRemoveNode s' 2 = some s')
    ∧ (∀ s', 2 ∈ ([0, 1, 2] : List Nat) →
        handleRemoveNode ⟨2000, 1, [0, 1, 2], false, none, 0⟩ 2 = some s' →
        s'.nodeIDs = [0, 1, 2].filter (fun nid => nid ≠ 2)
        ∧ calcProcessingNode s'.nodeIDs 2000 1 = some s'.processor
        ∧ (s'.processor = false → s'.shardListener = none ∧ s'.nextGen = 0)
        ∧ (s'.processor ≠ false → s'.processor = true → s'.shardListener = some ⟨0, true⟩)
        ∧ (s'.processor ≠ false → s'.processor = false → s'.shardListener = closeListener none)) :=
  ⟨(handleRemoveNode_spec ⟨2000, 1, [0, 1, 2], false, none, 0⟩ 3).1,
   (handleRemoveNode_spec ⟨2000, 1, [0, 1, 2], false, none, 0⟩ 2).2.1,
   (handleRemoveNode_spec ⟨2000, 1, [0, 1, 2], false, none, 0⟩ 2).2.2⟩

/-! ### C1: receiver-side dedup and atomic progress -/

theorem recvStep_dels (stored : Nat → Nat) (acc : RecvAcc) (kv : KVPair) :
    (recvStep stored acc kv).dels = acc.dels ++ [kv.key] := by
  by_cases h : (acc.seqs (entrySender kv)).getD (stored (entrySender kv)) < entrySeq kv <;>
    simp [recvStep, h]

theorem recvStep_eq_of_stale (stored : Nat → Nat) (acc : RecvAcc) (kv : KVPair)
    (h : ¬ (acc.seqs (entrySender kv)).getD (stored (entrySender kv)) < entrySeq kv) :
    recvStep stored acc kv = { acc with dels := acc.dels ++ [kv.key] } := by
  simp [recvStep, h]

theorem recvStep_eq_of_fresh (stored : Nat → Nat) (acc : RecvAcc) (kv : KVPair)
    (h : (acc.seqs (entrySender kv)).getD (stored (entrySender kv)) < entrySeq kv) :
    recvStep stored acc kv =
      { rows := fun c => if c = entryConsumer kv then acc.rows c ++ [kv.value] else acc.rows c
        seqs := fun s => if s = entrySender kv then some (entrySeq kv) else acc.seqs s
        consumers := if entryConsumer kv ∈ acc.consumers then acc.consumers
                     else acc.consumers ++ [entryConsumer kv]
        senders := if entrySender kv ∈ acc.senders then acc.senders
                   else acc.senders ++ [entrySender kv]
        dels := acc.dels ++ [kv.key]
        handled := acc.handled ++ [⟨entrySender kv, entrySeq kv, entryConsumer kv, kv.value⟩] } := by
  simp [recvStep, h]

theorem recvStep_inv (stored : Nat → Nat) (acc : RecvAcc) (kv : KVPair)
    (hinv : RecvInv stored acc) : RecvInv stored (recvStep stored acc kv) := by
  by_cases h : (acc.seqs (entrySender kv)).getD (stored (entrySender kv)) < entrySeq kv
  · rw [recvStep_eq_of_fresh stored acc kv h]
    have hlast : effLast stored acc (entrySender kv) < entrySeq kv := h
    constructor
    · intro s
      by_cases hs : s = entrySender kv
      · subst hs
        simp only [effLast, Option.getD_some, if_pos rfl]
        exact Nat.le_of_lt (Nat.lt_of_le_of_lt (hinv.lower _) hlast)
      · simpa [effLast, hs] using hinv.lower s
    · intro e he
      rcases List.mem_append.mp he with hold | hnew
      · exact hinv.handledLower e hold
      · rcases List.mem_singleton.mp hnew with rfl
        exact Nat.lt_of_le_of_lt (hinv.lower _) hlast
    · intro e he
      rcases List.mem_append.mp he with hold | hnew
      · by_cases hs : e.sender = entrySender kv
        · rw [hs]
          simp only [effLast, if_pos rfl, Option.getD_some]
          calc e.seq ≤ effLast stored acc e.sender := hinv.handledUpper e hold
          _ = effLast stored acc (entrySender kv) := by rw [hs]
          _ ≤ entrySeq kv := Nat.le_of_lt hlast
        · simpa [effLast, hs] using hinv.handledUpper e hold
      · rcases List.mem_singleton.mp hnew with rfl
        simp [effLast]
    · intro c
      by_cases hc : c = entryConsumer kv
      · subst hc
        simp only [if_pos rfl, List.filter_append, List.map_append]
        rw [hinv.grouped (entryConsumer kv)]
        simp
      · simp only [if_neg hc, List.filter_append, List.map_append]
        rw [hinv.grouped c]
        have hnil : List.filter (fun e => e.consumer == c)
            [(⟨entrySender kv, entrySeq kv, entryConsumer kv, kv.value⟩ : RecvEntry)] = [] := by
          simp [Ne.symm hc]
        simp [hnil]
    · rw [List.pairwise_append]
      refine ⟨hinv.increasing, List.pairwise_singleton _ _, ?_⟩
      intro a ha b hb
      rcases List.mem_singleton.mp hb with rfl
      intro hsend
      calc a.seq ≤ effLast stored acc a.sender := hinv.handledUpper a ha
      _ = effLast stored acc (entrySender kv) := by rw [hsend]
      _ < entrySeq kv := hlast
    · intro s
      by_cases hs : s = entrySender kv
      · subst hs
        simp only [if_pos rfl, Option.isSome_some, true_iff]
        by_cases hmem : entrySender kv ∈ acc.senders
        · simpa [hmem] using hmem
        · simp [hmem]
      · simp only [if_neg hs]
        rw [hinv.sendersIff s]
        by_cases hmem : entrySender kv ∈ acc.senders
        · simp [hmem]
        · simp [hmem, hs]
  · rw [recvStep_eq_of_stale stored acc kv h]
    exact ⟨hinv.lower, hinv.handledLower, hinv.handledUpper, hinv.grouped,
      hinv.increasing, hinv.sendersIff⟩

theorem recvFold_inv (stored : Nat → Nat) (kvs : List KVPair) :
    ∀ acc : RecvAcc, RecvInv stored acc →
      RecvInv stored (kvs.foldl (recvStep stored) acc) := by
  induction kvs with
  | nil => intro acc h; exact h
  | cons kv rest ih =>
    intro acc h
    exact ih (recvStep stored acc kv) (recvStep_inv stored acc kv h)

theorem recvFold_dels (stored : Nat → Nat) (kvs : List KVPair) :
    ∀ acc : RecvAcc, (kvs.foldl (recvStep stored) acc).dels = acc.dels ++ kvs.map KVPair.key := by
  induction kvs with
  | nil => intro acc; simp
  | cons kv rest ih =>
    intro acc
    rw [List.foldl_cons, ih, recvStep_dels]
    simp

theorem recvInit_inv (stored : Nat → Nat) : RecvInv stored recvInit := by
  constructor
  · intro s; simp [effLast, recvInit]
  · intro e he; simp [recvInit] at he
  · intro e he; simp [recvInit] at he
  · intro c; simp [recvInit]
  · simp [recvInit]
  · intro s; simp [recvInit]

theorem recvFold_effLast_lt (stored : Nat → Nat) (kvs : List KVPair) :
    ∀ (acc : RecvAcc) (s q : Nat), effLast stored acc s < q →
      (∀ kv ∈ kvs, entrySender kv = s → entrySeq kv < q) →
      effLast stored (kvs.foldl (recvStep stored) acc) s < q := by
  induction kvs with
  | nil => intro acc s q h _; exact h
  | cons kv rest ih =>
    intro acc s q h hall
    rw [List.foldl_cons]
    apply ih
    · by_cases hd : (acc.seqs (entrySender kv)).getD (stored (entrySender kv)) < entrySeq kv
      · rw [recvStep_eq_of_fresh stored acc kv hd]
        by_cases hs : s = entrySender kv
        · subst hs
          simp only [effLast, if_pos rfl, Option.getD_some]
          exact hall kv (by simp) rfl
        · simpa [effLast, hs] using h
      · rw [recvStep_eq_of_stale stored acc kv hd]
        exact h
    · intro kv' hk hsend
      exact hall kv' (by simp [hk]) hsend

theorem recvFold_handled_mem (stored : Nat → Nat) (kvs : List KVPair) :
    ∀ (acc : RecvAcc) (e : RecvEntry), e ∈ acc.handled →
      e ∈ (kvs.foldl (recvStep stored) acc).handled := by
  induction kvs with
  | nil => intro acc e h; exact h
  | cons kv rest ih =>
    intro acc e h
    rw [List.foldl_cons]
    apply ih
    by_cases hd : (acc.seqs (entrySender kv)).getD (stored (entrySender kv)) < entrySeq kv
    · rw [recvStep_eq_of_fresh stored acc kv hd]
      exact List.mem_append_left _ h
    · rw [recvStep_eq_of_stale stored acc kv hd]
      exact h

/-- C1 counterexample: the original claim's affirmative arm — every scanned
entry whose sender sequence exceeds the stored last-received sequence is
grouped by consumer and handed downstream — is false at a concrete input.
With stored last-received 100 and little-endian keys, sequence 512's key
sorts before sequence 511's, so the scan yields `[seq 512, seq 511]`; the
entry with sequence 511 > 100 is then never handed to any consumer (only
sequence 512 is: consumer 7's rows are `[[42]]` and the handled trace holds
only sequence 512), although its key is still deleted. -/
theorem receiver_entry_above_stored_dropped :
    bytesLtB (receiverKey 2000 1000 512 7) (receiverKey 2000 1000 511 7) = true
    ∧ 100 < entrySeq ⟨receiverKey 2000 1000 511 7, [41]⟩
    ∧ (handleReceivedRows (fun _ => 100)
        [⟨receiverKey 2000 1000 512 7, [42]⟩, ⟨receiverKey 2000 1000 511 7, [41]⟩]).handled
        = [⟨1000, 512, 7, [42]⟩]
    ∧ (handleReceivedRows (fun _ => 100)
        [⟨receiverKey 2000 1000 512 7, [42]⟩, ⟨receiverKey 2000 1000 511 7, [41]⟩]).rows 7
        = [[42]]
    ∧ (handleReceivedRows (fun _ => 100)
        [⟨receiverKey 2000 1000 512 7, [42]⟩, ⟨receiverKey 2000 1000 511 7, [41]⟩]).dels
        = [receiverKey 2000 1000 512 7, receiverKey 2000 1000 511 7] := by
  decide

/-- C1 (amended): over one scan of the receiver queue, every scanned key is
added to the write batch's deletes (in scan order); a row is handed
downstream exactly when its sender sequence exceeds the last-received
sequence maintained during the scan for its (receiving shard, sending
shard) pair — the maintained value starts from the stored one, so anything
at or below the stored sequence is dropped, and an entry above the stored
sequence and above every earlier same-sender scanned sequence is handed
downstream; rows handed downstream are grouped by consumer ID; per sender
the sequences handed downstream strictly increase, so each row is handled
at most once per receiver regardless of re-forwarding; and the deletes,
the updated last-received sequences and the downstream consumer's writes
all travel in the same write batch. -/
theorem handleReceivedRows_dedup (stored : Nat → Nat) (kvPairs : List KVPair)
    (receivingShardID : Nat) (handlerPuts : List (Bytes × Bytes)) :
    (handleReceivedRows stored kvPairs).dels = kvPairs.map KVPair.key
    ∧ (∀ e ∈ (handleReceivedRows stored kvPairs).handled, stored e.sender < e.seq)
    ∧ (∀ c, (handleReceivedRows stored kvPairs).rows c =
        (((handleReceivedRows stored kvPairs).handled.filter
          (fun e => e.consumer == c)).map RecvEntry.value))
    ∧ List.Pairwise (fun a b => a.sender = b.sender → a.seq < b.seq)
        (handleReceivedRows stored kvPairs).handled
    ∧ (handleReceivedRowsBatch receivingShardID stored kvPairs handlerPuts).deletes
        = kvPairs.map KVPair.key
    ∧ ((handleReceivedRows stored kvPairs).consumers ≠ [] →
        ∀ p ∈ handlerPuts,
          p ∈ (handleReceivedRowsBatch receivingShardID stored kvPairs handlerPuts).puts)
    ∧ (∀ s ∈ (handleReceivedRows stored kvPairs).senders, ∃ v,
        (handleReceivedRows stored kvPairs).seqs s = some v
        ∧ (genReceivingSequenceKey receivingShardID s, u64LE v)
            ∈ (handleReceivedRowsBatch receivingShardID stored kvPairs handlerPuts).puts)
    ∧ (∀ (pre : List KVPair) (kv : KVPair) (post : List KVPair),
        kvPairs = pre ++ kv :: post →
        stored (entrySender kv) < entrySeq kv →
        (∀ kv' ∈ pre, entrySender kv' = entrySender kv → entrySeq kv' < entrySeq kv) →
        (⟨entrySender kv, entrySeq kv, entryConsumer kv, kv.value⟩ : RecvEntry)
          ∈ (handleReceivedRows stored kvPairs).handled) := by
  have hinv : RecvInv stored (handleReceivedRows stored kvPairs) :=
    recvFold_inv stored kvPairs recvInit (recvInit_inv stored)
  have hdels : (handleReceivedRows stored kvPairs).dels = kvPairs.map KVPair.key := by
    rw [handleReceivedRows, recvFold_dels]
    simp [recvInit]
  refine ⟨hdels, hinv.handledLower, hinv.grouped, hinv.increasing, hdels, ?_, ?_, ?_⟩
  · intro hne p hp
    rw [handleReceivedRowsBatch]
    simp only [if_neg hne]
    exact List.mem_append_left _ hp
  · intro s hs
    obtain ⟨v, hv⟩ := Option.isSome_iff_exists.mp ((hinv.sendersIff s).mpr hs)
    refine ⟨v, hv, ?_⟩
    rw [handleReceivedRowsBatch]
    refine List.mem_append_right _ (List.mem_filterMap.mpr ⟨s, hs, ?_⟩)
    rw [hv]
  · intro pre kv post hdecomp hstored hpre
    subst hdecomp
    rw [handleReceivedRows, List.foldl_append, List.foldl_cons]
    apply recvFold_handled_mem
    have hlt : effLast stored (pre.foldl (recvStep stored) recvInit) (entrySender kv)
        < entrySeq kv := by
      apply recvFold_effLast_lt stored pre recvInit (entrySender kv) (entrySeq kv) ?_ hpre
      simpa [effLast, recvInit] using hstored
    rw [recvStep_eq_of_fresh stored _ kv hlt]
    exact List.mem_append_right _ (List.mem_singleton.mpr rfl)

/-- C1 witness: a single fresh entry (sequence 1 above stored 0) is handed
downstream, deleted, and its sequence update shares the batch with the
downstream write. -/
theorem handleReceivedRows_dedup_witness :
    (handleReceivedRows (fun _ => 0) [⟨receiverKey 2000 1000 1 7, [9]⟩]).dels
      = [⟨receiverKey 2000 1000 1 7, [9]⟩].map KVPair.key
    ∧ (∀ e ∈ (handleReceivedRows (fun _ => 0) [⟨receiverKey 2000 1000 1 7, [9]⟩]).handled,
        (fun _ => 0) e.sender < e.seq)
    ∧ (∀ c, (handleReceivedRows (fun _ => 0) [⟨receiverKey 2000 1000 1 7, [9]⟩]).rows c =
        (((handleReceivedRows (fun _ => 0) [⟨receiverKey 2000 1000 1 7, [9]⟩]).handled.filter
          (fun e => e.consumer == c)).map RecvEntry.value))
    ∧ List.Pairwise (fun a b => a.sender = b.sender → a.seq < b.seq)
        (handleReceivedRows (fun _ => 0) [⟨receiverKey 2000 1000 1 7, [9]⟩]).handled
    ∧ (handleReceivedRowsBatch 2000 (fun _ => 0) [⟨receiverKey 2000 1000 1 7, [9]⟩]
        [([1], [2])]).deletes = [⟨receiverKey 2000 1000 1 7, [9]⟩].map KVPair.key
    ∧ ((handleReceivedRows (fun _ => 0) [⟨receiverKey 2000 1000 1 7, [9]⟩]).consumers ≠ [] →
        ∀ p ∈ [(([1], [2]) : Bytes × Bytes)],
          p ∈ (handleReceivedRowsBatch 2000 (fun _ => 0) [⟨receiverKey 2000 1000 1 7, [9]⟩]
            [([1], [2])]).puts)
    ∧ (∀ s ∈ (handleReceivedRows (fun _ => 0) [⟨receiverKey 2000 1000 1 7, [9]⟩]).senders, ∃ v,
        (handleReceivedRows (fun _ => 0) [⟨receiverKey 2000 1000 1 7, [9]⟩]).seqs s = some v
        ∧ (genReceivingSequenceKey 2000 s, u64LE v)
            ∈ (handleReceivedRowsBatch 2000 (fun _ => 0) [⟨receiverKey 2000 1000 1 7, [9]⟩]
                [([1], [2])]).puts)
    ∧ (∀ (pre : List KVPair) (kv : KVPair) (post : List KVPair),
        [⟨receiverKey 2000 1000 1 7, [9]⟩] = pre ++ kv :: post →
        (fun _ => 0) (entrySender kv) < entrySeq kv →
        (∀ kv' ∈ pre, entrySender kv' = entrySender kv → entrySeq kv' < entrySeq kv) →
        (⟨entrySender kv, entrySeq kv, entryConsumer kv, kv.value⟩ : RecvEntry)
          ∈ (handleReceivedRows (fun _ => 0) [⟨receiverKey 2000 1000 1 7, [9]⟩]).handled) :=
  handleReceivedRows_dedup (fun _ => 0) [⟨receiverKey 2000 1000 1 7, [9]⟩] 2000 [([1], [2])]

/-! ### C2 (code bug): little-endian keys break sender-sequence order -/

/-- C2 failing input: receiver queue of shard 2000 holding the contiguous
sender sequences 255 and 256 from sending shard 1000 (stored last-received
254).  Because key fields are little-endian, sequence 256's key sorts
*before* sequence 255's in the byte order a scan uses, so the scan order is
`[seq 256, seq 255]`; the receiver then hands sequence 256 downstream first
and drops — yet deletes — sequence 255, which is never handed downstream at
all: sender-sequence order is violated and a fresh row is lost. -/
theorem receiver_drops_lower_sequence_after_higher :
    bytesLtB (receiverKey 2000 1000 256 7) (receiverKey 2000 1000 255 7) = true
    ∧ (handleReceivedRows (fun _ => 254)
        [⟨receiverKey 2000 1000 256 7, [42]⟩, ⟨receiverKey 2000 1000 255 7, [41]⟩]).handled
        = [⟨1000, 256, 7, [42]⟩]
    ∧ (handleReceivedRows (fun _ => 254)
        [⟨receiverKey 2000 1000 256 7, [42]⟩, ⟨receiverKey 2000 1000 255 7, [41]⟩]).dels
        = [receiverKey 2000 1000 256 7, receiverKey 2000 1000 255 7] := by
  decide

/-! ### C5: table executor upsert semantics -/

/-- C5: in `HandleRows`, an entry whose current row's encoded primary key is
already stored emits the decoded stored row as `prev` with the new row as
`curr` (a delete+insert for downstream consumers) and puts the new encoded
row under the same key; consequently ingesting two rows with the same
primary key (the store not holding the key beforehand) leaves exactly one
stored row under that key, holding the second value, with every other key
untouched. -/
theorem handleRows_upsert (tableID shardID : Nat) (pkCols : List Nat) (st0 : TStore) :
    (∀ (entries es : List TEntry) (wb : TWriteBatch) (i : Nat) (pr : Option Row) (r v : Row),
      handleRows tableID shardID pkCols st0 entries = some (es, wb) →
      entries[i]? = some ⟨pr, some r⟩ →
      st0 (rowKey tableID shardID pkCols r) = some v →
      es[i]? = some ⟨some (decodeRowV v), some r⟩
      ∧ (rowKey tableID shardID pkCols r, encodeRowV r) ∈ wb.puts)
    ∧ (∀ r1 r2 : Row,
        encodeKeyCols pkCols r1 = encodeKeyCols pkCols r2 →
        st0 (rowKey tableID shardID pkCols r1) = none →
        handleRows tableID shardID pkCols st0 [⟨none, some r1⟩]
          = some ([⟨none, some r1⟩],
              ⟨[(rowKey tableID shardID pkCols r1, encodeRowV r1)], []⟩)
        ∧ handleRows tableID shardID pkCols
            (applyTWriteBatch st0 ⟨[(rowKey tableID shardID pkCols r1, encodeRowV r1)], []⟩)
            [⟨none, some r2⟩]
          = some ([⟨some r1, some r2⟩],
              ⟨[(rowKey tableID shardID pkCols r1, encodeRowV r2)], []⟩)
        ∧ applyTWriteBatch
            (applyTWriteBatch st0 ⟨[(rowKey tableID shardID pkCols r1, encodeRowV r1)], []⟩)
            ⟨[(rowKey tableID shardID pkCols r1, encodeRowV r2)], []⟩
            (rowKey tableID shardID pkCols r1) = some (encodeRowV r2)
        ∧ (∀ k, k ≠ rowKey tableID shardID pkCols r1 →
            applyTWriteBatch
              (applyTWriteBatch st0 ⟨[(rowKey tableID shardID pkCols r1, encodeRowV r1)], []⟩)
              ⟨[(rowKey tableID shardID pkCols r1, encodeRowV r2)], []⟩ k = st0 k)) := by
  constructor
  · intro entries
    induction entries with
    | nil =>
      intro es wb i pr r v h hi _
      simp only [handleRows, Option.some.injEq] at h
      obtain ⟨rfl, rfl⟩ := Prod.mk.injEq .. ▸ Prod.ext_iff.mp h.symm
      simp at hi
    | cons e rest ih =>
      intro es wb i pr r v h hi hv
      cases hc : e.curr with
      | some c =>
        simp only [handleRows, hc] at h
        cases hrec : handleRows tableID shardID pkCols st0 rest with
        | none => rw [hrec] at h; exact absurd h (by simp)
        | some p =>
          obtain ⟨es', wb'⟩ := p
          rw [hrec] at h
          simp only [Option.some.injEq] at h
          obtain ⟨rfl, rfl⟩ := Prod.mk.injEq .. ▸ Prod.ext_iff.mp h.symm
          cases i with
          | zero =>
            simp only [List.getElem?_cons_zero, Option.some.injEq] at hi
            have hcr : c = r := by
              have hcu := congrArg TEntry.curr hi
              simp [hc] at hcu
              exact hcu
            subst hcr
            rw [hv]
            exact ⟨by simp, List.mem_cons_self _ _⟩
          | succ n =>
            simp only [List.getElem?_cons_succ] at hi
            obtain ⟨h1, h2⟩ := ih es' wb' n pr r v hrec hi hv
            exact ⟨by simpa using h1, List.mem_cons_of_mem _ h2⟩
      | none =>
        cases hp : e.prev with
        | none => simp [handleRows, hc, hp] at h
        | some pv =>
          simp only [handleRows, hc, hp] at h
          cases hrec : handleRows tableID shardID pkCols st0 rest with
          | none => rw [hrec] at h; exact absurd h (by simp)
          | some p =>
            obtain ⟨es', wb'⟩ := p
            rw [hrec] at h
            simp only [Option.some.injEq] at h
            obtain ⟨rfl, rfl⟩ := Prod.mk.injEq .. ▸ Prod.ext_iff.mp h.symm
            cases i with
            | zero =>
              simp only [List.getElem?_cons_zero, Option.some.injEq] at hi
              have := congrArg TEntry.curr hi
              simp [hc] at this
            | succ n =>
              simp only [List.getElem?_cons_succ] at hi
              obtain ⟨h1, h2⟩ := ih es' wb' n pr r v hrec hi hv
              exact ⟨by simpa using h1, h2⟩
  · intro r1 r2 hpk h0
    have hk : rowKey tableID shardID pkCols r2 = rowKey tableID shardID pkCols r1 := by
      simp [rowKey, hpk]
    have hfirst : handleRows tableID shardID pkCols st0 [⟨none, some r1⟩]
        = some ([⟨none, some r1⟩],
            ⟨[(rowKey tableID shardID pkCols r1, encodeRowV r1)], []⟩) := by
      simp [handleRows, h0]
    have hst1 : ∀ k, applyTWriteBatch st0
        ⟨[(rowKey tableID shardID pkCols r1, encodeRowV r1)], []⟩ k
        = if k = rowKey tableID shardID pkCols r1 then some (encodeRowV r1) else st0 k := by
      intro k
      simp [applyTWriteBatch]
    have hsecond : handleRows tableID shardID pkCols
        (applyTWriteBatch st0 ⟨[(rowKey tableID shardID pkCols r1, encodeRowV r1)], []⟩)
        [⟨none, some r2⟩]
        = some ([⟨some r1, some r2⟩],
            ⟨[(rowKey tableID shardID pkCols r1, encodeRowV r2)], []⟩) := by
      simp only [handleRows, hst1, hk, if_pos rfl]
      rfl
    refine ⟨hfirst, hsecond, ?_, ?_⟩
    · simp [applyTWriteBatch]
    · intro k hkne
      simp [applyTWriteBatch, hkne]

/-- C5 witness: ingesting `(1, 10)` then `(1, 20)` with primary key column 0
into an empty store emits the first row as `prev` of the second and leaves
one stored row with the second value; and with a prefilled store the stored
row is decoded and emitted. -/
theorem handleRows_upsert_witness :
    ([(⟨some (decodeRowV [1, 99]), some [1, 10]⟩ : TEntry)][0]?
        = some ⟨some (decodeRowV [1, 99]), some [1, 10]⟩
      ∧ (rowKey 5 2000 [0] [1, 10], encodeRowV [1, 10])
          ∈ (⟨[(rowKey 5 2000 [0] [1, 10], encodeRowV [1, 10])], []⟩ : TWriteBatch).puts)
    ∧ (handleRows 5 2000 [0] (fun _ => none) [⟨none, some [1, 10]⟩]
        = some ([⟨none, some [1, 10]⟩], ⟨[(rowKey 5 2000 [0] [1, 10], encodeRowV [1, 10])], []⟩)
      ∧ handleRows 5 2000 [0]
          (applyTWriteBatch (fun _ => none)
            ⟨[(rowKey 5 2000 [0] [1, 10], encodeRowV [1, 10])], []⟩) [⟨none, some [1, 20]⟩]
        = some ([⟨some [1, 10], some [1, 20]⟩],
            ⟨[(rowKey 5 2000 [0] [1, 10], encodeRowV [1, 20])], []⟩)
      ∧ applyTWriteBatch
          (applyTWriteBatch (fun _ => none)
            ⟨[(rowKey 5 2000 [0] [1, 10], encodeRowV [1, 10])], []⟩)
          ⟨[(rowKey 5 2000 [0] [1, 10], encodeRowV [1, 20])], []⟩
          (rowKey 5 2000 [0] [1, 10]) = some (encodeRowV [1, 20])
      ∧ (∀ k, k ≠ rowKey 5 2000 [0] [1, 10] →
          applyTWriteBatch
            (applyTWriteBatch (fun _ => none)
              ⟨[(rowKey 5 2000 [0] [1, 10], encodeRowV [1, 10])], []⟩)
            ⟨[(rowKey 5 2000 [0] [1, 10], encodeRowV [1, 20])], []⟩ k = (fun _ => none) k)) :=
  ⟨(handleRows_upsert 5 2000 [0]
      (fun k => if k = rowKey 5 2000 [0] [1, 10] then some [1, 99] else none)).1
      [⟨none, some [1, 10]⟩] [⟨some (decodeRowV [1, 99]), some [1, 10]⟩]
      ⟨[(rowKey 5 2000 [0] [1, 10], encodeRowV [1, 10])], []⟩ 0 none [1, 10] [1, 99]
      (by decide) (by decide) (by decide),
   (handleRows_upsert 5 2000 [0] (fun _ => none)).2 [1, 10] [1, 20] (by decide) rfl⟩

/-! ### C10: single-statement client -/

/-- C10: while a statement is executing, `CreateSession`, `CloseSession` and
`ExecuteStatement` each return an error without any server call and leave
the client unchanged; a successful `ExecuteStatement` merely sets the
`executing` flag; and `doExecuteStatement` clears the flag only at the very
end, after every channel write and after the channel close. -/
theorem client_single_statement (c : ClientState) (newSessionID sessionID statement : String)
    (lines : List String) (finalLine : String) :
    (c.executing = true →
      (∃ msg, createSession c newSessionID = (c, Except.error msg, []))
      ∧ (∃ msg, closeSession c sessionID = (c, Except.error msg, []))
      ∧ (∃ msg, executeStatement c statement = (c, Except.error msg, [])))
    ∧ (c.started = true → c.executing = false →
        executeStatement c statement = ({ c with executing := true }, Except.ok (), []))
    ∧ (∃ writes : List ClientEvent,
        (doExecuteStatement c statement lines finalLine).2
          = ClientEvent.serverExecute statement ::
              (writes ++ [ClientEvent.chanClose, ClientEvent.clearExecuting])
        ∧ (∀ e ∈ writes, ∃ l, e = ClientEvent.chanWrite l)
        ∧ (doExecuteStatement c statement lines finalLine).1
            = { c with executing := false }) := by
  refine ⟨?_, ?_, ?_⟩
  · intro hex
    cases hs : c.started
    · exact ⟨⟨"not started", by simp [createSession, hs]⟩,
        ⟨"not started", by simp [closeSession, hs]⟩,
        ⟨"not started", by simp [executeStatement, hs]⟩⟩
    · exact ⟨⟨"statement currently executing", by simp [createSession, hs, hex]⟩,
        ⟨"statement currently executing", by simp [closeSession, hs, hex]⟩,
        ⟨"statement already executing", by simp [executeStatement, hs, hex]⟩⟩
  · intro hs hex
    simp [executeStatement, hs, hex]
  · refine ⟨lines.map ClientEvent.chanWrite ++ [ClientEvent.chanWrite finalLine], ?_, ?_, rfl⟩
    · simp [doExecuteStatement]
    · intro e he
      rcases List.mem_append.mp he with hmap | hlast
      · obtain ⟨l, _, hl⟩ := List.mem_map.mp hmap
        exact ⟨l, hl.symm⟩
      · exact ⟨finalLine, List.mem_singleton.mp hlast⟩

/-- C10 witness: a client mid-statement refuses all three operations without
server contact, and an idle client's `ExecuteStatement` sets the flag. -/
theorem client_single_statement_witness :
    ((∃ msg, createSession ⟨true, true, []⟩ "s1" = (⟨true, true, []⟩, Except.error msg, []))
      ∧ (∃ msg, closeSession ⟨true, true, []⟩ "s0" = (⟨true, true, []⟩, Except.error msg, []))
      ∧ (∃ msg, executeStatement ⟨true, true, []⟩ "select 1"
          = (⟨true, true, []⟩, Except.error msg, [])))
    ∧ executeStatement ⟨true, false, []⟩ "select 1" = (⟨true, true, []⟩, Except.ok (), []) :=
  ⟨(client_single_statement ⟨true, true, []⟩ "s1" "s0" "select 1" [] "0 rows returned").1 rfl,
   (client_single_statement ⟨true, false, []⟩ "s1" "s0" "select 1" [] "0 rows returned").2.1
     rfl rfl⟩

end Prana
